import Mathlib

/-!
Verification of the BLIP messaging core of this repository
(src/blip/Message.cc) against its natural-language specification.

Bytes are modelled as natural numbers (every byte the code manipulates is
in 0..255), owned byte buffers as lists of bytes, and the fleece Writer as
the list it has accumulated.  The codec primitives (varint read/write, the
Writer) and the message headers (Message.hh, flag layout) are not part of
the visible sources; they are modelled from the spec where noted.
Everything else is a direct translation of Message.cc.
-/

namespace Blip

/-- A byte of the wire format, as a natural number in 0..255. -/
abbrev Byte := Nat

/-- Message types.  Modelled from the spec: the closed set of five message
types carried in the type bits of the flags byte (the header defining the
numeric encoding is not among the visible sources, so the type is kept
symbolic). -/
inductive MessageType where
  | request
  | response
  | error
  | ackRequest
  | ackResponse
deriving DecidableEq

/-- Frame flags.  Modelled from the spec: type bits plus the Compressed,
Urgent, NoReply and MoreComing bits, kept as named fields instead of a
packed byte (the header fixing bit positions is not among the visible
sources). -/
structure FrameFlags where
  type : MessageType
  compressed : Bool
  urgent : Bool
  noreply : Bool
  moreComing : Bool
deriving DecidableEq

/-- Modelled from the spec: a message whose type is Response or Error is a
response (isResponse() of the missing Message.hh header); Error has the
same correlation rules as Response. -/
def MessageType.isResponseKind : MessageType → Bool
  | .response => true
  | .error => true
  | _ => false

/-- How many bytes to receive before sending an ACK (kIncomingAckThreshold
in Message.cc). -/
def kIncomingAckThreshold : Nat := 50000

/-- Number of bytes reserved up front for the properties-size varint
(kPropertiesSizeReserved in Message.cc). -/
def kPropertiesSizeReserved : Nat := 1

/-- Modelled from the spec: PutUVarInt writes the minimal LEB128 encoding
of a 64-bit value, 7 data bits per byte, continuation bit high, at most 10
bytes (varint.hh is not among the visible sources).  The fuel argument
bounds the number of output bytes; 10 suffices for every 64-bit value. -/
def putUVarIntAux : Nat → Nat → List Byte
  | 0, _ => []
  | fuel + 1, n => if n < 128 then [n] else (n % 128 + 128) :: putUVarIntAux fuel (n / 128)

/-- Minimal LEB128 encoding of a 64-bit unsigned value. -/
def putUVarInt (n : Nat) : List Byte := putUVarIntAux 10 n

/-- Modelled from the spec: LEB128 decoding with a maximum of 10 encoded
bytes; fails (none) when the input ends mid-varint or the length cap is
exceeded. -/
def readUVarIntAux : Nat → List Byte → Option (Nat × List Byte)
  | 0, _ => none
  | _ + 1, [] => none
  | fuel + 1, b :: rest =>
    if b < 128 then some (b, rest)
    else match readUVarIntAux fuel rest with
      | none => none
      | some (v, rest2) => some (v * 128 + (b - 128), rest2)

/-- Modelled from the spec: ReadUVarInt32 consumes a varint from the front
of a slice and fails if it is malformed, truncated, or its value exceeds
32 bits.  Returns the value and the remainder of the slice. -/
def readUVarInt32 (bytes : List Byte) : Option (Nat × List Byte) :=
  match readUVarIntAux 10 bytes with
  | some (v, rest) => if v < 2 ^ 32 then some (v, rest) else none
  | none => none

/-! ### The well-known-strings table (kSpecialProperties in Message.cc) -/

/-- The fixed table of property names and values abbreviated to a single
token byte (index + 1).  Byte lists spell the strings of
kSpecialProperties, in order:
"Profile", "Error-Code", "Error-Domain", "Content-Type",
"application/json", "application/octet-stream",
"text/plain; charset=UTF-8", "text/xml", "Accept", "Cache-Control",
"must-revalidate", "If-Match", "If-None-Match", "Location". -/
def kSpecialProperties : List (List Byte) :=
  [ [80, 114, 111, 102, 105, 108, 101],
    [69, 114, 114, 111, 114, 45, 67, 111, 100, 101],
    [69, 114, 114, 111, 114, 45, 68, 111, 109, 97, 105, 110],
    [67, 111, 110, 116, 101, 110, 116, 45, 84, 121, 112, 101],
    [97, 112, 112, 108, 105, 99, 97, 116, 105, 111, 110, 47, 106, 115, 111, 110],
    [97, 112, 112, 108, 105, 99, 97, 116, 105, 111, 110, 47, 111, 99, 116, 101, 116, 45,
     115, 116, 114, 101, 97, 109],
    [116, 101, 120, 116, 47, 112, 108, 97, 105, 110, 59, 32, 99, 104, 97, 114, 115, 101,
     116, 61, 85, 84, 70, 45, 56],
    [116, 101, 120, 116, 47, 120, 109, 108],
    [65, 99, 99, 101, 112, 116],
    [67, 97, 99, 104, 101, 45, 67, 111, 110, 116, 114, 111, 108],
    [109, 117, 115, 116, 45, 114, 101, 118, 97, 108, 105, 100, 97, 116, 101],
    [73, 102, 45, 77, 97, 116, 99, 104],
    [73, 102, 45, 78, 111, 110, 101, 45, 77, 97, 116, 99, 104],
    [76, 111, 99, 97, 116, 105, 111, 110] ]

/-- Linear scan of the special-strings table (tokenize in Message.cc):
returns the 1-byte token when the string is found, the original string
otherwise.  The index argument is the token value of the head of the
remaining table. -/
def tokenizeFrom : List (List Byte) → Nat → List Byte → List Byte
  | [], _, s => s
  | sp :: rest, i, s => if s = sp then [i] else tokenizeFrom rest (i + 1) s

/-- Abbreviates certain special strings as a single byte (tokenize in
Message.cc). -/
def tokenize (s : List Byte) : List Byte := tokenizeFrom kSpecialProperties 1 s

/-! ### MessageBuilder -/

/-- The state of a MessageBuilder: the Writer contents, the position of
the reserved properties-size placeholder (none once properties are
finished), and the flag fields. -/
structure MessageBuilder where
  out : List Byte
  propertiesSizePos : Option Nat
  type : MessageType
  urgent : Bool
  compressed : Bool
  noreply : Bool
deriving DecidableEq

/-- Default-constructed MessageBuilder: type Request, nothing set, one
placeholder byte reserved at the head of the output for the
properties-size varint.  (The spec models reserveSpace as writing zero
bytes and remembering the position.) -/
def MessageBuilder.init : MessageBuilder :=
  { out := List.replicate kPropertiesSizeReserved 0,
    propertiesSizePos := some 0,
    type := .request, urgent := false, compressed := false, noreply := false }

/-- MessageBuilder::flags(): the frame flags of the message under
construction (type + urgent + compressed + noreply; MoreComing is never
set by the builder). -/
def MessageBuilder.flags (mb : MessageBuilder) : FrameFlags :=
  { type := mb.type, compressed := mb.compressed, urgent := mb.urgent,
    noreply := mb.noreply, moreComing := false }

/-- MessageBuilder::addProperty(name, value): appends
tokenize(name), NUL, tokenize(value), NUL to the output.  The assertions
of the source (no interior NUL, first byte at least 32 when non-empty,
properties not yet finished) are preconditions, not runtime behavior. -/
def addProperty (mb : MessageBuilder) (name value : List Byte) : MessageBuilder :=
  { mb with out := mb.out ++ tokenize name ++ [0] ++ tokenize value ++ [0] }

/-- A property string is valid when it has no interior NUL and, if
non-empty, its first byte is at least 32 (the addProperty assertions). -/
def ValidPropString (s : List Byte) : Prop :=
  0 ∉ s ∧ (∀ b ∈ s.head?, 32 ≤ b)

/-- MessageBuilder::finishProperties(): computes the properties size
(output length minus the reserved byte), encodes it as a varint, and
either rewrites the one reserved byte in place (1-byte encoding) or
extracts the whole output, resets the Writer, writes the multi-byte
varint and appends the extracted bytes, exactly as the source does. -/
def finishProperties (mb : MessageBuilder) : MessageBuilder :=
  match mb.propertiesSizePos with
  | none => mb
  | some pos =>
    let propertiesSize := mb.out.length - kPropertiesSizeReserved
    let encodedSize := putUVarInt propertiesSize
    if encodedSize.length = 1 then
      { mb with out := mb.out.take pos ++ encodedSize ++ mb.out.drop (pos + 1),
                propertiesSizePos := none }
    else
      { mb with out := encodedSize ++ mb.out, propertiesSizePos := none }

/-- MessageBuilder::write(data): finalizes the properties on first use and
appends body bytes. -/
def MessageBuilder.write (mb : MessageBuilder) (data : List Byte) : MessageBuilder :=
  let mb := finishProperties mb
  { mb with out := mb.out ++ data }

/-- MessageBuilder::extractOutput(): finalizes the properties and yields
the full payload. -/
def extractOutput (mb : MessageBuilder) : List Byte :=
  (finishProperties mb).out

/-! ### MessageOut -/

/-- The pending-response handle a MessageOut creates for a request that
expects a reply: a fresh MessageIn with tentative flags of plain Response
type and the same message number. -/
structure PendingResponse where
  flags : FrameFlags
  number : Nat
deriving DecidableEq

/-- The state of a MessageOut: flags, number and payload fixed at
construction; bytesSent and unackedBytes mutated by the send path; the
optional pending response created at construction. -/
structure MessageOut where
  flags : FrameFlags
  number : Nat
  payload : List Byte
  bytesSent : Nat
  unackedBytes : Nat
  pendingResponse : Option PendingResponse
deriving DecidableEq

/-- The MessageOut constructor: byte counters start at zero, and a pending
response (a MessageIn with tentative Response flags and the same number)
is created exactly when the message is a Request without NoReply. -/
def mkMessageOut (f : FrameFlags) (payload : List Byte) (number : Nat) : MessageOut :=
  { flags := f, number := number, payload := payload,
    bytesSent := 0, unackedBytes := 0,
    pendingResponse :=
      if f.type = .request ∧ f.noreply = false then
        some { flags := { type := .response, compressed := false, urgent := false,
                          noreply := false, moreComing := false },
               number := number }
      else none }

/-- MessageOut::nextFrameToSend(maxSize, outFlags): returns the next
payload slice, the advanced state, and the outgoing frame flags (flags()
with MoreComing ORed in when unsent bytes remain). -/
def nextFrameToSend (m : MessageOut) (maxSize : Nat) :
    List Byte × MessageOut × FrameFlags :=
  let size := min maxSize (m.payload.length - m.bytesSent)
  let frame := (m.payload.drop m.bytesSent).take size
  let bytesSent' := m.bytesSent + size
  let outFlags :=
    if bytesSent' < m.payload.length then { m.flags with moreComing := true } else m.flags
  (frame, { m with bytesSent := bytesSent', unackedBytes := m.unackedBytes + size }, outFlags)

/-- MessageOut::receivedAck(byteCount): lowers unackedBytes to at most
bytesSent - byteCount when byteCount is in range, ignores the ack
otherwise. -/
def receivedAck (m : MessageOut) (byteCount : Nat) : MessageOut :=
  if byteCount ≤ m.bytesSent then
    { m with unackedBytes := min m.unackedBytes (m.bytesSent - byteCount) }
  else m

/-- MessageOut::futureResponse(): the future of the pending response when
there is one, a nullary future (none) otherwise.  A future is modelled as
the pending-response handle it will deliver. -/
def futureResponse (m : MessageOut) : Option PendingResponse :=
  match m.pendingResponse with
  | some response => some response
  | none => none

/-! ### MessageIn -/

/-- The protocol errors MessageIn::receivedFrame can raise (the throw
sites of the source, in order of appearance). -/
inductive BlipError where
  | compressionUnsupported
  | frameTooSmall
  | propertiesNotNulTerminated
  | messageEndsBeforeProperties
deriving DecidableEq

/-- The state of a MessageIn under reassembly: flags and number, the
accumulator Writer (none before the first frame and after completion),
the declared properties size, the extracted properties, the completed
body, and the un-acked byte counter. -/
structure MessageInState where
  flags : FrameFlags
  number : Nat
  acc : Option (List Byte)
  propertiesSize : Nat
  properties : Option (List Byte)
  body : Option (List Byte)
  unackedBytes : Nat
deriving DecidableEq

/-- A fresh MessageIn: tentative flags (overwritten by the first frame),
no accumulator, nothing received. -/
def initialMessageIn (tentative : FrameFlags) (number : Nat) : MessageInState :=
  { flags := tentative, number := number, acc := none, propertiesSize := 0,
    properties := none, body := none, unackedBytes := 0 }

/-- The part of MessageIn::receivedFrame after the first-frame header
handling: property extraction, ACK accounting, body accumulation and
completion.  bytesReceived is the value computed at entry to the call
(original frame size plus accumulator length); acc is the accumulator
contents and frame the bytes remaining after the varint was consumed.
Returns the ACK MessageOut handed to the connection, if any, alongside
the result (an ACK can be sent on the same call that then raises the
end-of-properties error, exactly as in the source). -/
def receivedFrameBody (st : MessageInState) (bytesReceived : Nat) (acc : List Byte)
    (frame : List Byte) (ff : FrameFlags) :
    Option MessageOut × Except BlipError (MessageInState × Bool) :=
  let step2 : Except BlipError (List Byte × List Byte × Option (List Byte)) :=
    if st.properties = none ∧ st.propertiesSize ≤ acc.length + frame.length then
      let remaining := st.propertiesSize - acc.length
      let props := acc ++ frame.take remaining
      if 0 < props.length ∧ props.getLast? ≠ some 0 then
        .error .propertiesNotNulTerminated
      else .ok ([], frame.drop remaining, some props)
    else .ok (acc, frame, st.properties)
  match step2 with
  | .error e => (none, .error e)
  | .ok (acc1, frame1, props1) =>
    let u := st.unackedBytes + frame1.length
    let ack : Option MessageOut :=
      if kIncomingAckThreshold ≤ u then
        some (mkMessageOut
          { type := if st.flags.type.isResponseKind then .ackResponse else .ackRequest,
            compressed := false, urgent := true, noreply := true, moreComing := false }
          (putUVarInt bytesReceived) st.number)
      else none
    let u' := if kIncomingAckThreshold ≤ u then 0 else u
    let acc2 := acc1 ++ frame1
    if ff.moreComing then
      (ack, .ok ({ st with acc := some acc2, properties := props1, unackedBytes := u' },
                 false))
    else
      match props1 with
      | none => (ack, .error .messageEndsBeforeProperties)
      | some _ =>
        (ack, .ok ({ st with acc := none, properties := props1, body := some acc2,
                             unackedBytes := u' },
                   true))

/-- MessageIn::receivedFrame(frame, frameFlags): on the first frame adopts
the frame flags, rejects Compressed, and consumes the properties-size
varint; then extracts the properties once enough bytes have arrived,
checking NUL termination; counts un-acked bytes and emits an ACK at the
50000-byte threshold; appends the rest to the accumulator; and on the
final frame (MoreComing clear) requires the properties to be complete and
extracts the body.  Returns the ACK sent (if any) and either a protocol
error or the new state paired with the completion flag. -/
def receivedFrame (st : MessageInState) (frame : List Byte) (ff : FrameFlags) :
    Option MessageOut × Except BlipError (MessageInState × Bool) :=
  match st.acc with
  | some acc0 => receivedFrameBody st (frame.length + acc0.length) acc0 frame ff
  | none =>
    if ff.compressed then (none, .error .compressionUnsupported)
    else
      match readUVarInt32 frame with
      | none => (none, .error .frameTooSmall)
      | some (psize, rest) =>
        receivedFrameBody { st with flags := ff, propertiesSize := psize }
          frame.length [] rest ff

/-- Feeds a list of (frame, flags) pairs to a MessageIn in order, stopping
at the first protocol error, and collects every ACK message sent along
the way. -/
def runFrames : MessageInState → List (List Byte × FrameFlags) →
    List MessageOut × Except BlipError MessageInState
  | st, [] => ([], .ok st)
  | st, (f, ff) :: rest =>
    match receivedFrame st f ff with
    | (ack, .error e) => (ack.toList, .error e)
    | (ack, .ok (st', _)) =>
      let (acks, r) := runFrames st' rest
      (ack.toList ++ acks, r)

/-- Tags a list of frames with per-frame flags: the given base flags with
MoreComing set on every frame but the last. -/
def tagFrames (base : FrameFlags) : List (List Byte) → List (List Byte × FrameFlags)
  | [] => []
  | [f] => [(f, { base with moreComing := false })]
  | f :: rest => (f, { base with moreComing := true }) :: tagFrames base rest

/-- Following the amended claim C2: within one call past the header
stage, the frame bytes counted into unackedBytes — the whole remaining
frame unless the declared properties block completes in this call, in
which case the bytes that complete the block (declared size minus the
accumulator length) are consumed first.  Stated from the call's inputs:
the properties field, the declared size, the accumulator contents and the
remaining frame. -/
def bodyResidual (properties : Option (List Byte)) (psize : Nat)
    (acc frame : List Byte) : Nat :=
  if properties = none ∧ psize ≤ acc.length + frame.length then
    frame.length - (psize - acc.length)
  else frame.length

/-- Following the amended claim C2: the frame bytes one receivedFrame
call counts into unackedBytes — the frame minus the properties-size
varint on the first frame and minus any properties bytes that complete
the declared block in that call (zero when the first frame's varint is
unreadable, in which case the call errors before any accounting). -/
def residualFrameSize (st : MessageInState) (frame : List Byte) : Nat :=
  match st.acc with
  | some a => bodyResidual st.properties st.propertiesSize a frame
  | none =>
    match readUVarInt32 frame with
    | none => 0
    | some (psize, tail) => bodyResidual st.properties psize [] tail

/-- The byte count receivedFrame computes at entry to the call: the
original frame size plus the accumulator length (zero on the first
frame).  This is the value the ACK body encodes. -/
def bytesReceivedAtEntry (st : MessageInState) (frame : List Byte) : Nat :=
  frame.length + (match st.acc with | some a => a.length | none => 0)

/-! ### MessageIn property lookup -/

/-- The number of bytes strlen reads from position i of a properties
block: the length of the longest NUL-free run starting there. -/
def strlenFrom (props : List Byte) (i : Nat) : Nat :=
  ((props.drop i).takeWhile (fun b => b != 0)).length

/-- One iteration per fuel unit of the scanning loop of
MessageIn::property: at cursor position key, measure the key with strlen,
step past its NUL to the value; stop (no match) if the value position is
at or past the end; otherwise measure the value, return it if the key
matches, and continue after the value's NUL. -/
def propertyScan (props name : List Byte) : Nat → Nat → Option (List Byte)
  | 0, _ => none
  | fuel + 1, key =>
    if key < props.length then
      let endOfKey := key + strlenFrom props key
      let val := endOfKey + 1
      if props.length ≤ val then none
      else
        let endOfVal := val + strlenFrom props val
        if (props.drop key).take (endOfKey - key) = name then
          some ((props.drop val).take (endOfVal - val))
        else propertyScan props name fuel (endOfVal + 1)
    else none

/-- MessageIn::property(name): linear scan of the NUL-delimited block; the
loop advances the cursor by at least two bytes per iteration, so a fuel
of length + 1 never runs out before the loop guard stops the scan. -/
def property (props name : List Byte) : Option (List Byte) :=
  propertyScan props name (props.length + 1) 0

/-- The assertion at the top of MessageIn::respond: the source checks only
that NoReply is clear on this message. -/
def respondPrecondition (st : MessageInState) : Bool := !st.flags.noreply

/-- MessageIn::respond(builder): coerce the builder type from Request to
Response and construct the MessageOut that is handed to the connection,
carrying this message's number, the builder's flags and its extracted
payload. -/
def respond (st : MessageInState) (mb : MessageBuilder) : MessageOut :=
  let mb := if mb.type = .request then { mb with type := .response } else mb
  mkMessageOut mb.flags (extractOutput mb) st.number

/-! ### Encodings used to state the claims -/

/-- The wire encoding of one key/value pair: key, NUL, value, NUL. -/
def encodePair (p : List Byte × List Byte) : List Byte :=
  p.1 ++ 0 :: (p.2 ++ [0])

/-- The wire encoding of a list of key/value pairs. -/
def encodePairs (ps : List (List Byte × List Byte)) : List Byte :=
  (ps.map encodePair).flatten

/-- A list of key/value pairs is valid for the property block when no key
or value contains a NUL byte. -/
def ValidPairs (pairs : List (List Byte × List Byte)) : Prop :=
  ∀ p ∈ pairs, 0 ∉ p.1 ∧ 0 ∉ p.2

/-- Input-level characterization of the receive-side protocol errors of
claim C4, for a payload delivered as a first frame f1 followed by frames
rest: the first frame carries the Compressed flag, or the leading varint
of the first frame is malformed, truncated or beyond 32 bits, or fewer
properties bytes than declared arrive in total, or the declared
properties block does not end in a 0 byte. -/
def ProtocolErrorCond (base : FrameFlags) (f1 : List Byte) (rest : List (List Byte)) : Prop :=
  base.compressed = true ∨
  readUVarInt32 f1 = none ∨
  ∃ psize tail, readUVarInt32 f1 = some (psize, tail) ∧
    (tail.length + (rest.map List.length).sum < psize ∨
     (psize ≤ tail.length + (rest.map List.length).sum ∧
      ∃ b, ((tail ++ rest.flatten).take psize).getLast? = some b ∧ b ≠ 0))

/-! ### Concrete sample inputs used by the claim evaluations -/

/-- Byte spelling of "Profile" (well-known string, token 1). -/
def profileBytes : List Byte := [80, 114, 111, 102, 105, 108, 101]

/-- Byte spelling of "subChanges" (not a well-known string). -/
def subChangesBytes : List Byte := [115, 117, 98, 67, 104, 97, 110, 103, 101, 115]

/-- Plain Request frame flags: nothing else set. -/
def ffRequest : FrameFlags :=
  { type := .request, compressed := false, urgent := false, noreply := false,
    moreComing := false }

/-- Request flags with MoreComing set. -/
def ffRequestMore : FrameFlags := { ffRequest with moreComing := true }

/-- The payload the builder produces for the single property
Profile = subChanges (scenario S1 of the spec). -/
def c1Payload : List Byte :=
  extractOutput (addProperty MessageBuilder.init profileBytes subChangesBytes)

/-- A 70-byte property name of printable bytes (letter A). -/
def c3Name : List Byte := List.replicate 70 65

/-- A 58-byte property value of printable bytes (letter B); together with
the name this makes a 130-byte properties block, whose size varint needs
two bytes. -/
def c3Value : List Byte := List.replicate 58 66

/-- The payload the builder produces for the 130-byte properties block. -/
def c3Payload : List Byte :=
  extractOutput (addProperty MessageBuilder.init c3Name c3Value)

/-- A MessageIn mid-stream: properties complete, three body bytes
accumulated, 49999 un-acked bytes. -/
def midStreamState : MessageInState :=
  { flags := ffRequest, number := 9, acc := some [7, 7, 7], propertiesSize := 1,
    properties := some [0], body := none, unackedBytes := 49999 }

/-- The state midStreamState reaches after a one-byte frame crosses the
ACK threshold: the byte appended to the accumulator, unackedBytes reset
to zero. -/
def midStreamStateAfter : MessageInState :=
  { flags := ffRequest, number := 9, acc := some [7, 7, 7, 5], propertiesSize := 1,
    properties := some [0], body := none, unackedBytes := 0 }

/-- The ACK message that threshold crossing emits: AckRequest, Urgent and
NoReply, body UVarInt(4) (one frame byte plus three accumulator bytes),
number 9. -/
def midStreamAck : MessageOut :=
  mkMessageOut
    { type := .ackRequest, compressed := false, urgent := true, noreply := true,
      moreComing := false }
    (putUVarInt 4) 9

/-- A completed incoming response with NoReply clear, used to probe the
respond precondition. -/
def c9ResponseState : MessageInState :=
  { flags := { type := .response, compressed := false, urgent := false,
               noreply := false, moreComing := false },
    number := 7, acc := none, propertiesSize := 0, properties := some [0],
    body := some [], unackedBytes := 0 }

/-- A completed incoming request with NoReply clear. -/
def c9RequestState : MessageInState :=
  { flags := ffRequest, number := 5, acc := none, propertiesSize := 0,
    properties := some [0], body := some [], unackedBytes := 0 }

/-- A MessageOut part-way through sending: 600-byte payload, 500 bytes
sent, 300 of them un-acked. -/
def outSample : MessageOut :=
  { flags := ffRequest, number := 3, payload := List.replicate 600 1,
    bytesSent := 500, unackedBytes := 300, pendingResponse := none }

/-! ### Claim theorems -/

/-- MessageOut::futureResponse returns exactly the pending-response
handle (the match on the option is the null check of the source). -/
theorem futureResponse_eq (m : MessageOut) : futureResponse m = m.pendingResponse := by
  unfold futureResponse
  cases h : m.pendingResponse <;> rfl

/-- Claim C6: receivedAck lowers unackedBytes to
min unacked (bytesSent - byteCount) for in-range acks, ignores
out-of-range acks entirely, and is idempotent for a fixed byteCount. -/
theorem C6_receivedAck (m : MessageOut) (k : Nat) :
    (k ≤ m.bytesSent →
      receivedAck m k = { m with unackedBytes := min m.unackedBytes (m.bytesSent - k) }) ∧
    (m.bytesSent < k → receivedAck m k = m) ∧
    receivedAck (receivedAck m k) k = receivedAck m k := by
  refine ⟨fun h => by simp [receivedAck, h], fun h => by simp [receivedAck, Nat.not_le.mpr h],
    ?_⟩
  by_cases h : k ≤ m.bytesSent
  · simp [receivedAck, h, Nat.min_assoc]
  · simp [receivedAck, h]

set_option maxRecDepth 10000 in
/-- Witness for C6 at a concrete MessageOut with 500 bytes sent, 300
un-acked, acked up to byte 400. -/
theorem C6_receivedAck_witness :
    receivedAck outSample 400 =
      { outSample with
        unackedBytes := min outSample.unackedBytes (outSample.bytesSent - 400) } :=
  (C6_receivedAck outSample 400).1 (by decide)

/-- Claim C7: nextFrameToSend returns the payload slice of length
min maxSize (payload.length - bytesSent) at offset bytesSent, advances
bytesSent and unackedBytes by that length, sets the outgoing flags to
flags() with MoreComing ORed in exactly when unsent bytes remain
afterwards, returns the empty slice once drained, and keeps
bytesSent at most payload.length. -/
theorem C7_nextFrameToSend (m : MessageOut) (maxSize : Nat)
    (h : m.bytesSent ≤ m.payload.length) :
    (nextFrameToSend m maxSize).1.length = min maxSize (m.payload.length - m.bytesSent) ∧
    (nextFrameToSend m maxSize).1 =
      (m.payload.drop m.bytesSent).take (min maxSize (m.payload.length - m.bytesSent)) ∧
    (nextFrameToSend m maxSize).2.1.bytesSent =
      m.bytesSent + (nextFrameToSend m maxSize).1.length ∧
    (nextFrameToSend m maxSize).2.1.unackedBytes =
      m.unackedBytes + (nextFrameToSend m maxSize).1.length ∧
    (nextFrameToSend m maxSize).2.2 =
      (if (nextFrameToSend m maxSize).2.1.bytesSent < m.payload.length
       then { m.flags with moreComing := true } else m.flags) ∧
    (m.bytesSent = m.payload.length → (nextFrameToSend m maxSize).1 = []) ∧
    (nextFrameToSend m maxSize).2.1.bytesSent ≤ m.payload.length := by
  have hlen : (nextFrameToSend m maxSize).1.length =
      min maxSize (m.payload.length - m.bytesSent) := by
    simp only [nextFrameToSend, List.length_take, List.length_drop]
    omega
  refine ⟨hlen, rfl, by rw [hlen]; rfl, by rw [hlen]; rfl, rfl, fun he => ?_, ?_⟩
  · simp [nextFrameToSend, he]
  · simp only [nextFrameToSend]
    omega

set_option maxRecDepth 10000 in
/-- Witness for C7 at the concrete sample MessageOut asking for a 70-byte
frame. -/
theorem C7_nextFrameToSend_witness :
    (nextFrameToSend outSample 70).1.length =
      min 70 (outSample.payload.length - outSample.bytesSent) ∧
    (nextFrameToSend outSample 70).2.1.bytesSent ≤ outSample.payload.length :=
  ⟨(C7_nextFrameToSend outSample 70 (by decide)).1,
   (C7_nextFrameToSend outSample 70 (by decide)).2.2.2.2.2.2⟩

/-- Claim C8: a MessageOut constructed from flags and payload holds a
pending response exactly when it is a Request without NoReply, and
futureResponse yields that pending response's future in exactly that case
and the nullary future otherwise. -/
theorem C8_pendingResponse (f : FrameFlags) (p : List Byte) (n : Nat) :
    ((mkMessageOut f p n).pendingResponse ≠ none ↔
      f.type = .request ∧ f.noreply = false) ∧
    futureResponse (mkMessageOut f p n) =
      (if f.type = .request ∧ f.noreply = false then
        some { flags := { type := .response, compressed := false, urgent := false,
                          noreply := false, moreComing := false }, number := n }
       else none) := by
  constructor
  · by_cases hc : f.type = .request ∧ f.noreply = false
    · simp [mkMessageOut, hc]
    · simp [mkMessageOut, hc]
  · rw [futureResponse_eq]
    rfl

/-- Claim C9 counterexample: the assertion at the top of
MessageIn::respond checks only NoReply, so a completed incoming response
(type Response, NoReply clear) passes the precondition and respond
proceeds, although the claim says respond rejects being called on a
response. -/
theorem C9_counterexample :
    respondPrecondition c9ResponseState = true ∧
    c9ResponseState.flags.type = .response ∧
    (respond c9ResponseState MessageBuilder.init).number = 7 :=
  ⟨rfl, rfl, rfl⟩

/-- Claim C9 as amended: respond asserts only that NoReply is clear on
this message (it does not check that the message is a request); under
that precondition it coerces the builder type from Request to Response
and sends a MessageOut carrying this message's number. -/
theorem C9_respond (st : MessageInState) (mb : MessageBuilder)
    (h : respondPrecondition st = true) :
    (respond st mb).number = st.number ∧
    (mb.type = .request → (respond st mb).flags.type = .response) ∧
    (mb.type ≠ .request → (respond st mb).flags.type = mb.type) := by
  refine ⟨rfl, fun ht => ?_, fun ht => ?_⟩
  · simp [respond, mkMessageOut, MessageBuilder.flags, ht]
  · simp [respond, mkMessageOut, MessageBuilder.flags, if_neg ht]

/-- Witness for C9 at a concrete request MessageIn and a fresh builder. -/
theorem C9_respond_witness :
    (respond c9RequestState MessageBuilder.init).number = c9RequestState.number ∧
    (respond c9RequestState MessageBuilder.init).flags.type = .response :=
  ⟨(C9_respond c9RequestState MessageBuilder.init (by decide)).1,
   (C9_respond c9RequestState MessageBuilder.init (by decide)).2.1 rfl⟩

set_option maxRecDepth 10000 in
/-- Claim C1 evaluated at the failing input (spec scenario S1): the
builder tokenizes the well-known name Profile to the single byte 1, the
payload reassembles without error into the token-bearing properties block
and an empty body, but MessageIn::property compares the queried name
against the stored token byte without detokenizing, so looking up Profile
returns nothing instead of the added value subChanges. -/
theorem C1_token_lookup_fails :
    tokenize profileBytes = [1] ∧
    c1Payload = [13, 1, 0] ++ subChangesBytes ++ [0] ∧
    (runFrames (initialMessageIn ffRequest 1) [(c1Payload, ffRequest)]).2.map
      (fun st => (st.properties.map (fun ps => property ps profileBytes), st.body)) =
      Except.ok (some none, some []) :=
  ⟨rfl, rfl, rfl⟩

set_option maxRecDepth 10000 in
/-- Claim C3 evaluated at the failing input: with a 130-byte properties
block the size varint needs two bytes, and finishProperties re-emits the
whole extracted Writer contents including the reserved placeholder byte,
so the payload is varint, a stray 0 byte, then the properties; feeding
that payload back to a fresh MessageIn raises the
properties-not-NUL-terminated protocol error instead of round-tripping. -/
theorem C3_placeholder_leftover :
    c3Payload = putUVarInt 130 ++ [0] ++ (c3Name ++ [0] ++ c3Value ++ [0]) ∧
    (runFrames (initialMessageIn ffRequest 1) [(c3Payload, ffRequest)]).2 =
      .error .propertiesNotNulTerminated :=
  ⟨rfl, by rfl⟩

/-- Claim C2 counterexample: a first frame consisting of the single
varint byte 0 (declared properties size zero) has original size 1, but
receivedFrame advances unackedBytes only by the residual frame size after
the varint was consumed, leaving it at 0 instead of 1. -/
theorem C2_counterexample :
    (receivedFrame (initialMessageIn ffRequest 1) [0] ffRequestMore).2.map
      (fun p => p.1.unackedBytes) = Except.ok 0 ∧
    ([0] : List Byte).length = 1 :=
  ⟨rfl, rfl⟩

/-- The ACK accounting law of the common body of receivedFrame, covering
the properties phase, the frame that completes the block, and every
later frame: unackedBytes grows by the residual frame size, the ACK
fires exactly at the 50000-byte threshold with the entry byte count as
its body, and flags and number are preserved from the body's state. -/
theorem receivedFrameBody_ack_law (st : MessageInState) (br : Nat)
    (acc frame : List Byte) (ff : FrameFlags) (ack : Option MessageOut)
    (st' : MessageInState) (d : Bool)
    (h : receivedFrameBody st br acc frame ff = (ack, .ok (st', d))) :
    ack = (if kIncomingAckThreshold ≤
             st.unackedBytes + bodyResidual st.properties st.propertiesSize acc frame then
             some (mkMessageOut
               { type := if st.flags.type.isResponseKind then .ackResponse
                         else .ackRequest,
                 compressed := false, urgent := true, noreply := true,
                 moreComing := false }
               (putUVarInt br) st.number)
           else none) ∧
    st'.unackedBytes =
      (if kIncomingAckThreshold ≤
         st.unackedBytes + bodyResidual st.properties st.propertiesSize acc frame then 0
       else st.unackedBytes + bodyResidual st.properties st.propertiesSize acc frame) ∧
    st'.number = st.number ∧
    st'.flags = st.flags := by
  unfold receivedFrameBody at h
  unfold bodyResidual
  by_cases hc : st.properties = none ∧ st.propertiesSize ≤ acc.length + frame.length
  · rw [if_pos hc] at h
    rw [if_pos hc]
    by_cases hnul : 0 < (acc ++ frame.take (st.propertiesSize - acc.length)).length ∧
        (acc ++ frame.take (st.propertiesSize - acc.length)).getLast? ≠ some 0
    · rw [if_pos hnul] at h
      simp at h
    · rw [if_neg hnul] at h
      dsimp only at h
      rw [List.length_drop] at h
      by_cases hmc : ff.moreComing
      · rw [if_pos hmc] at h
        simp only [Prod.mk.injEq, Except.ok.injEq] at h
        obtain ⟨hack, hst, -⟩ := h
        subst hack
        subst hst
        exact ⟨rfl, rfl, rfl, rfl⟩
      · rw [if_neg hmc] at h
        simp only [Prod.mk.injEq, Except.ok.injEq] at h
        obtain ⟨hack, hst, -⟩ := h
        subst hack
        subst hst
        exact ⟨rfl, rfl, rfl, rfl⟩
  · rw [if_neg hc] at h
    rw [if_neg hc]
    dsimp only at h
    by_cases hmc : ff.moreComing
    · rw [if_pos hmc] at h
      simp only [Prod.mk.injEq, Except.ok.injEq] at h
      obtain ⟨hack, hst, -⟩ := h
      subst hack
      subst hst
      exact ⟨rfl, rfl, rfl, rfl⟩
    · rw [if_neg hmc] at h
      cases hp : st.properties with
      | none =>
        rw [hp] at h
        simp at h
      | some ps =>
        rw [hp] at h
        dsimp only at h
        simp only [Prod.mk.injEq, Except.ok.injEq] at h
        obtain ⟨hack, hst, -⟩ := h
        subst hack
        subst hst
        exact ⟨rfl, rfl, rfl, rfl⟩

/-- Claim C2 as amended, over every receivedFrame call that does not
raise a protocol error — the first frame, frames that complete the
properties block, and all later frames alike: unackedBytes grows by the
residual frame size (the frame bytes left after the properties-size
varint on the first frame and any properties bytes completing the block
are consumed in that call; equal to the original frame size once the
block is complete); whenever it reaches 50000, an ACK MessageOut is
handed to the connection whose type is AckResponse if this MessageIn is
a response and AckRequest otherwise, with Urgent and NoReply
additionally set, whose body is the UVarInt encoding of the original
frame size plus the accumulator length at entry (the bytes received so
far not counting the size varint and the properties bytes), and whose
message number equals this message's number; unackedBytes is then reset
to zero. -/
theorem C2_ack_accounting (st : MessageInState) (frame : List Byte) (ff : FrameFlags)
    (ack : Option MessageOut) (st' : MessageInState) (d : Bool)
    (h : receivedFrame st frame ff = (ack, .ok (st', d))) :
    ack = (if kIncomingAckThreshold ≤ st.unackedBytes + residualFrameSize st frame then
             some (mkMessageOut
               { type := if st'.flags.type.isResponseKind then .ackResponse
                         else .ackRequest,
                 compressed := false, urgent := true, noreply := true,
                 moreComing := false }
               (putUVarInt (bytesReceivedAtEntry st frame)) st.number)
           else none) ∧
    st'.unackedBytes =
      (if kIncomingAckThreshold ≤ st.unackedBytes + residualFrameSize st frame then 0
       else st.unackedBytes + residualFrameSize st frame) ∧
    st'.number = st.number := by
  cases hacc : st.acc with
  | some a =>
    unfold receivedFrame at h
    rw [hacc] at h
    dsimp only at h
    obtain ⟨hack, hu, hn, hfl⟩ := receivedFrameBody_ack_law _ _ _ _ _ _ _ _ h
    have hres : residualFrameSize st frame =
        bodyResidual st.properties st.propertiesSize a frame := by
      unfold residualFrameSize
      rw [hacc]
    have hbr : bytesReceivedAtEntry st frame = frame.length + a.length := by
      unfold bytesReceivedAtEntry
      rw [hacc]
    rw [hres, hbr, hfl]
    exact ⟨hack, hu, hn⟩
  | none =>
    unfold receivedFrame at h
    rw [hacc] at h
    dsimp only at h
    by_cases hcz : ff.compressed
    · rw [if_pos hcz] at h
      simp at h
    · rw [if_neg hcz] at h
      cases hv : readUVarInt32 frame with
      | none =>
        rw [hv] at h
        simp at h
      | some pr =>
        obtain ⟨psize, tail⟩ := pr
        rw [hv] at h
        dsimp only at h
        obtain ⟨hack, hu, hn, hfl⟩ := receivedFrameBody_ack_law
          { st with flags := ff, propertiesSize := psize } frame.length [] tail ff
          ack st' d h
        have hres : residualFrameSize st frame =
            bodyResidual st.properties psize [] tail := by
          unfold residualFrameSize
          rw [hacc]
          dsimp only
          rw [hv]
        have hbr : bytesReceivedAtEntry st frame = frame.length := by
          unfold bytesReceivedAtEntry
          rw [hacc]
          simp
        dsimp only at hack hu hn hfl
        rw [hres, hbr, hfl]
        exact ⟨hack, hu, hn⟩

set_option maxRecDepth 10000 in
/-- Witness for C2 at the concrete mid-stream MessageIn with 49999
un-acked bytes receiving a one-byte frame, which crosses the 50000-byte
threshold: the ACK with body UVarInt(4) is emitted and unackedBytes is
reset to zero. -/
theorem C2_ack_accounting_witness :
    (some midStreamAck : Option MessageOut) =
      (if kIncomingAckThreshold ≤
          midStreamState.unackedBytes + residualFrameSize midStreamState [5] then
        some (mkMessageOut
          { type := if midStreamStateAfter.flags.type.isResponseKind then .ackResponse
                    else .ackRequest,
            compressed := false, urgent := true, noreply := true, moreComing := false }
          (putUVarInt (bytesReceivedAtEntry midStreamState [5])) midStreamState.number)
       else none) ∧
    midStreamStateAfter.unackedBytes =
      (if kIncomingAckThreshold ≤
          midStreamState.unackedBytes + residualFrameSize midStreamState [5] then 0
       else midStreamState.unackedBytes + residualFrameSize midStreamState [5]) ∧
    midStreamStateAfter.number = midStreamState.number :=
  C2_ack_accounting midStreamState [5] ffRequestMore (some midStreamAck)
    midStreamStateAfter false (by rfl)

/-- A properties block that passed the NUL-termination check of
receivedFrame is empty or ends in a 0 byte. -/
theorem nul_check_passed (props : List Byte)
    (hnul : ¬(0 < props.length ∧ props.getLast? ≠ some 0)) :
    props.getLast?.getD 0 = 0 := by
  push_neg at hnul
  by_cases hp : props.length = 0
  · simp [List.length_eq_zero.mp hp]
  · rw [hnul (by omega)]
    rfl

/-- One receivedFrameBody step either leaves the properties field
unchanged or sets it to a block that is empty or ends in a 0 byte. -/
theorem receivedFrameBody_properties_shape (st : MessageInState) (br : Nat)
    (acc frame : List Byte) (ff : FrameFlags) (ack : Option MessageOut)
    (st' : MessageInState) (d : Bool)
    (h : receivedFrameBody st br acc frame ff = (ack, .ok (st', d))) :
    st'.properties = st.properties ∨
      ∃ ps, st'.properties = some ps ∧ ps.getLast?.getD 0 = 0 := by
  have h2 := congrArg Prod.snd h
  unfold receivedFrameBody at h2
  by_cases hc : st.properties = none ∧ st.propertiesSize ≤ acc.length + frame.length
  · rw [if_pos hc] at h2
    by_cases hnul : 0 < (acc ++ frame.take (st.propertiesSize - acc.length)).length ∧
        (acc ++ frame.take (st.propertiesSize - acc.length)).getLast? ≠ some 0
    · rw [if_pos hnul] at h2
      simp at h2
    · rw [if_neg hnul] at h2
      dsimp only at h2
      right
      refine ⟨acc ++ frame.take (st.propertiesSize - acc.length), ?_,
        nul_check_passed _ hnul⟩
      split at h2
      · simp at h2
        exact h2.1 ▸ rfl
      · simp at h2
        exact h2.1 ▸ rfl
  · rw [if_neg hc] at h2
    dsimp only at h2
    left
    split at h2
    · simp at h2
      exact h2.1 ▸ rfl
    · split at h2
      · simp at h2
      · simp at h2
        exact h2.1 ▸ rfl

/-- One receivedFrame step either leaves the properties field unchanged
or sets it to a block that is empty or ends in a 0 byte. -/
theorem receivedFrame_properties_shape (st : MessageInState) (frame : List Byte)
    (ff : FrameFlags) (ack : Option MessageOut) (st' : MessageInState) (d : Bool)
    (h : receivedFrame st frame ff = (ack, .ok (st', d))) :
    st'.properties = st.properties ∨
      ∃ ps, st'.properties = some ps ∧ ps.getLast?.getD 0 = 0 := by
  unfold receivedFrame at h
  cases hacc : st.acc with
  | some acc0 =>
    rw [hacc] at h
    dsimp only at h
    exact receivedFrameBody_properties_shape _ _ _ _ _ _ _ _ h
  | none =>
    rw [hacc] at h
    dsimp only at h
    by_cases hcz : ff.compressed
    · rw [if_pos hcz] at h
      simp at h
    · rw [if_neg hcz] at h
      cases hv : readUVarInt32 frame with
      | none => rw [hv] at h; simp at h
      | some pr =>
        obtain ⟨psize, rest⟩ := pr
        rw [hv] at h
        dsimp only at h
        exact receivedFrameBody_properties_shape
          { st with flags := ff, propertiesSize := psize } frame.length [] rest ff
          ack st' d h

/-- The NUL-termination invariant on the properties field is preserved by
any error-free prefix of receivedFrame calls. -/
theorem runFrames_properties_invariant (frames : List (List Byte × FrameFlags))
    (st stF : MessageInState)
    (hst : ∀ ps, st.properties = some ps → ps.getLast?.getD 0 = 0)
    (h : (runFrames st frames).2 = .ok stF) :
    ∀ ps, stF.properties = some ps → ps.getLast?.getD 0 = 0 := by
  induction frames generalizing st with
  | nil =>
    simp only [runFrames, Except.ok.injEq] at h
    exact h ▸ hst
  | cons p rest ih =>
    obtain ⟨f, ff⟩ := p
    rcases hr : receivedFrame st f ff with ⟨ack, res⟩
    cases res with
    | error e => simp [runFrames, hr] at h
    | ok pr =>
      obtain ⟨st', d⟩ := pr
      have hst' : ∀ ps, st'.properties = some ps → ps.getLast?.getD 0 = 0 := by
        rcases receivedFrame_properties_shape st f ff ack st' d hr with he | ⟨ps0, hps0, h0⟩
        · intro ps hps
          exact hst ps (he ▸ hps)
        · intro ps hps
          rw [hps0, Option.some.injEq] at hps
          exact hps ▸ h0
      simp only [runFrames, hr] at h
      exact ih st' hst' h

/-- Claim C5: in every state reached from a fresh MessageIn by a sequence
of receivedFrame calls that raises no protocol error, once the properties
field is set its last byte (if any) is 0; the state produced by a
declared properties size of zero carries the empty block, which has no
last byte, and satisfies the invariant vacuously. -/
theorem C5_properties_nul_terminated (tent : FrameFlags) (n : Nat)
    (frames : List (List Byte × FrameFlags)) (stF : MessageInState) (ps : List Byte)
    (hrun : (runFrames (initialMessageIn tent n) frames).2 = .ok stF)
    (hps : stF.properties = some ps) :
    ps.getLast?.getD 0 = 0 :=
  runFrames_properties_invariant frames _ stF (by simp [initialMessageIn]) hrun ps hps

/-- Witness for C5 at the zero-length-properties boundary input: the
single first frame consisting of the varint byte 0 with MoreComing set
reaches the state whose properties block is empty. -/
theorem C5_witness : (([] : List Byte).getLast?.getD 0) = 0 :=
  C5_properties_nul_terminated ffRequest 1 [([0], ffRequestMore)]
    { flags := ffRequestMore, number := 1, acc := some [], propertiesSize := 0,
      properties := some [], body := none, unackedBytes := 0 } []
    (by rfl) rfl

/-- Scanning for the first NUL stops right after a NUL-free run. -/
theorem takeWhile_append_nul (n X : List Byte) (hn : 0 ∉ n) :
    (n ++ 0 :: X).takeWhile (fun b => b != 0) = n := by
  induction n with
  | nil => simp [List.takeWhile_cons]
  | cons a t ih =>
    have ha : a ≠ 0 := fun hh => hn (by simp [hh])
    have ht : 0 ∉ t := fun hm => hn (List.mem_cons_of_mem a hm)
    simp [List.takeWhile_cons, ha, ih ht]

/-- strlen at a position whose tail is a NUL-free run followed by a NUL
measures exactly that run. -/
theorem strlenFrom_of_drop (props n X : List Byte) (i : Nat)
    (hd : props.drop i = n ++ 0 :: X) (hn : 0 ∉ n) :
    strlenFrom props i = n.length := by
  unfold strlenFrom
  rw [hd, takeWhile_append_nul n X hn]

/-- Claim C10 part 1, as a lemma: in a block ending in a 0 byte, strlen
started at any position inside the block finds its terminator strictly
inside the block, so the scan never reads past the end. -/
theorem strlenFrom_lt (props : List Byte) (hlast : props.getLast? = some 0)
    (i : Nat) (hi : i < props.length) : i + strlenFrom props i < props.length := by
  have hne : props ≠ [] := by rintro rfl; simp at hi
  have hdne : props.drop i ≠ [] := by
    simp only [ne_eq, List.drop_eq_nil_iff]
    omega
  have hdlast : (props.drop i).getLast? = some 0 := by
    rw [List.getLast?_eq_getLast _ hdne]
    rw [List.getLast?_eq_getLast _ hne] at hlast
    rw [← hlast]
    congr 1
    exact List.getLast_drop ..
  have h0mem : (0 : Byte) ∈ props.drop i := List.mem_of_mem_getLast? hdlast
  have hsub : (props.drop i).takeWhile (fun b => b != 0) ≠ props.drop i := by
    intro he
    have hall := List.takeWhile_eq_self_iff.mp he 0 h0mem
    simp at hall
  have hle := (List.takeWhile_prefix (l := props.drop i) (fun b => b != 0)).length_le
  have hlt : ((props.drop i).takeWhile (fun b => b != 0)).length < (props.drop i).length := by
    rcases Nat.lt_or_ge ((props.drop i).takeWhile (fun b => b != 0)).length
        (props.drop i).length with h | h
    · exact h
    · exact absurd ((List.takeWhile_prefix _).eq_of_length (by omega)) hsub
  have hdl : (props.drop i).length = props.length - i := List.length_drop ..
  unfold strlenFrom
  omega

/-- A pair list never out-counts its encoding. -/
theorem length_le_encodePairs (pairs : List (List Byte × List Byte)) :
    pairs.length ≤ (encodePairs pairs).length := by
  induction pairs with
  | nil => simp [encodePairs]
  | cons p t ih =>
    simp only [encodePairs, List.map_cons, List.flatten_cons, List.length_append,
      List.length_cons]
    simp only [encodePairs] at ih
    have : 1 ≤ (encodePair p).length := by
      simp [encodePair]
      omega
    omega

/-- The scanning loop of MessageIn::property walks over a block of
NUL-terminated pairs none of whose keys is the sought name, reaches the
trailing lone key, and stops there with no match because the key's
terminating NUL is the last byte of the block, so the value position
falls at the end. -/
theorem propertyScan_skips (k : List Byte) (hk : 0 ∉ k) :
    ∀ (pairs : List (List Byte × List Byte)) (fuel key : Nat) (props : List Byte),
      ValidPairs pairs → (∀ p ∈ pairs, p.1 ≠ k) →
      props.drop key = encodePairs pairs ++ (k ++ [0]) →
      pairs.length < fuel →
      propertyScan props k fuel key = none := by
  intro pairs
  induction pairs with
  | nil =>
    intro fuel key props _ _ hd hf
    obtain ⟨fuel, rfl⟩ : ∃ f, fuel = f + 1 := ⟨fuel - 1, by omega⟩
    have hd' : props.drop key = k ++ 0 :: [] := by simpa [encodePairs] using hd
    have hlen : props.length - key = k.length + 1 := by
      have := congrArg List.length hd'
      simp at this
      omega
    have hkey : key < props.length := by omega
    unfold propertyScan
    rw [if_pos hkey]
    dsimp only
    rw [strlenFrom_of_drop props k [] key hd' hk]
    rw [if_pos (by omega)]
  | cons p t ih =>
    obtain ⟨nm, v⟩ := p
    intro fuel key props hv hnk hd hf
    obtain ⟨fuel, rfl⟩ : ∃ f, fuel = f + 1 := ⟨fuel - 1, by omega⟩
    have hnm0 : 0 ∉ nm := (hv _ (List.mem_cons_self _ _)).1
    have hv0 : 0 ∉ v := (hv _ (List.mem_cons_self _ _)).2
    have hd' : props.drop key = nm ++ 0 :: (v ++ 0 :: (encodePairs t ++ (k ++ [0]))) := by
      simpa [encodePairs, encodePair, List.append_assoc] using hd
    have hlen : props.length - key =
        nm.length + 1 + (v.length + 1 + ((encodePairs t ++ (k ++ [0])).length)) := by
      have := congrArg List.length hd'
      simp at this
      simp
      omega
    have hkey : key < props.length := by
      have : 1 ≤ (k ++ [0]).length := by simp
      simp at hlen
      omega
    unfold propertyScan
    rw [if_pos hkey]
    dsimp only
    rw [strlenFrom_of_drop props nm _ key hd' hnm0]
    rw [if_neg (by simp at hlen; omega)]
    have hd2 : props.drop (key + nm.length + 1) =
        v ++ 0 :: (encodePairs t ++ (k ++ [0])) := by
      have hdd : props.drop (key + nm.length + 1) =
          (props.drop key).drop (nm.length + 1) := by
        rw [List.drop_drop]
        congr 1
      rw [hdd, hd']
      rw [show nm ++ 0 :: (v ++ 0 :: (encodePairs t ++ (k ++ [0]))) =
            (nm ++ [0]) ++ (v ++ 0 :: (encodePairs t ++ (k ++ [0]))) by simp]
      rw [show nm.length + 1 = (nm ++ [0]).length by simp]
      exact List.drop_left ..
    rw [strlenFrom_of_drop props v _ (key + nm.length + 1) hd2 hv0]
    have hslice : (props.drop key).take (key + nm.length - key) = nm := by
      rw [hd', Nat.add_sub_cancel_left]
      exact List.take_left ..
    rw [if_neg (by rw [hslice]; exact hnk _ (List.mem_cons_self _ _))]
    refine ih fuel (key + nm.length + 1 + v.length + 1) props
      (fun q hq => hv q (List.mem_cons_of_mem _ hq))
      (fun q hq => hnk q (List.mem_cons_of_mem _ hq)) ?_ (by simp at hf; omega)
    have hdd2 : props.drop (key + nm.length + 1 + v.length + 1) =
        (props.drop (key + nm.length + 1)).drop (v.length + 1) := by
      rw [List.drop_drop]
      congr 1
    rw [hdd2, hd2]
    rw [show v ++ 0 :: (encodePairs t ++ (k ++ [0])) =
          (v ++ [0]) ++ (encodePairs t ++ (k ++ [0])) by simp]
    rw [show v.length + 1 = (v ++ [0]).length by simp]
    exact List.drop_left ..

/-- Claim C10: for every properties block ending in a 0 byte, the key and
value measurements of MessageIn::property's scan always find their
terminator inside the block (the scan never reads past the end), and when
the block consists of pairs followed by a trailing lone key (its NUL
being the last byte, with no value field after it), the scan stops and
reports no match for that key, returning the null slice. -/
theorem C10_property_scan (props : List Byte) (hlast : props.getLast? = some 0) :
    (∀ i, i < props.length → i + strlenFrom props i < props.length) ∧
    (∀ pairs k, props = encodePairs pairs ++ (k ++ [0]) → ValidPairs pairs → 0 ∉ k →
      (∀ p ∈ pairs, p.1 ≠ k) → property props k = none) := by
  constructor
  · exact fun i hi => strlenFrom_lt props hlast i hi
  · intro pairs k hshape hv hk hnk
    unfold property
    refine propertyScan_skips k hk pairs (props.length + 1) 0 props hv hnk
      (by simp [hshape]) ?_
    have h1 := length_le_encodePairs pairs
    have h2 := congrArg List.length hshape
    simp at h2
    omega

/-- Witness for C10 at the block holding the pair 'A' = 'B' followed by
the trailing lone key 'C': strlen of the first key stays in bounds and
the lookup of the trailing key finds nothing. -/
theorem C10_property_scan_witness :
    (0 + strlenFrom [65, 0, 66, 0, 67, 0] 0 < 6) ∧
    property [65, 0, 66, 0, 67, 0] [67] = none :=
  ⟨(C10_property_scan [65, 0, 66, 0, 67, 0] rfl).1 0 (by decide),
   (C10_property_scan [65, 0, 66, 0, 67, 0] rfl).2 [([65], [66])] [67] (by decide)
     (by unfold ValidPairs; decide) (by decide) (by decide)⟩

/-- receivedFrame on a state with an allocated accumulator is the common
body with bytesReceived = frame size + accumulator length. -/
theorem receivedFrame_of_acc (st : MessageInState) (frame : List Byte) (ff : FrameFlags)
    (a : List Byte) (hacc : st.acc = some a) :
    receivedFrame st frame ff =
      receivedFrameBody st (frame.length + a.length) a frame ff := by
  unfold receivedFrame
  rw [hacc]

/-- receivedFrame on a first frame carrying the Compressed flag raises
the protocol error and sends nothing. -/
theorem receivedFrame_first_compressed (st : MessageInState) (frame : List Byte)
    (ff : FrameFlags) (hacc : st.acc = none) (hcz : ff.compressed = true) :
    receivedFrame st frame ff = (none, .error .compressionUnsupported) := by
  unfold receivedFrame
  rw [hacc]
  dsimp only
  rw [if_pos (by simp [hcz])]

/-- receivedFrame on a first frame whose leading varint cannot be read
raises the protocol error and sends nothing. -/
theorem receivedFrame_first_badVarint (st : MessageInState) (frame : List Byte)
    (ff : FrameFlags) (hacc : st.acc = none) (hcz : ff.compressed = false)
    (hv : readUVarInt32 frame = none) :
    receivedFrame st frame ff = (none, .error .frameTooSmall) := by
  unfold receivedFrame
  rw [hacc]
  dsimp only
  rw [if_neg (by simp [hcz]), hv]

/-- receivedFrame on a well-formed first frame adopts the frame flags,
records the declared properties size and proceeds with the rest of the
frame and an empty accumulator. -/
theorem receivedFrame_first (st : MessageInState) (frame : List Byte)
    (ff : FrameFlags) (hacc : st.acc = none) (hcz : ff.compressed = false)
    (psize : Nat) (rest : List Byte) (hv : readUVarInt32 frame = some (psize, rest)) :
    receivedFrame st frame ff =
      receivedFrameBody { st with flags := ff, propertiesSize := psize }
        frame.length [] rest ff := by
  unfold receivedFrame
  rw [hacc]
  dsimp only
  rw [if_neg (by simp [hcz]), hv]

/-- The tail of a runFrames run, one frame at a time. -/
theorem runFrames_cons (st : MessageInState) (f : List Byte) (ff : FrameFlags)
    (L : List (List Byte × FrameFlags)) :
    (runFrames st ((f, ff) :: L)).2 =
      (match (receivedFrame st f ff).2 with
       | .error e => .error e
       | .ok (st', _) => (runFrames st' L).2) := by
  rcases hr : receivedFrame st f ff with ⟨ack, res⟩
  rcases res with e | ⟨st', d⟩ <;> simp [runFrames, hr]

/-- After the properties block is set, receivedFrameBody cannot raise an
error; it appends the frame to the accumulator (into the body on the
final frame) and leaves the properties unchanged. -/
theorem receivedFrameBody_ok_of_props (st : MessageInState) (br : Nat)
    (acc frame : List Byte) (ff : FrameFlags) (ps : List Byte)
    (hp : st.properties = some ps) :
    ∃ st' d, (receivedFrameBody st br acc frame ff).2 = .ok (st', d) ∧
      st'.properties = some ps ∧
      st'.acc = (if ff.moreComing then some (acc ++ frame) else none) := by
  unfold receivedFrameBody
  rw [if_neg (by simp [hp])]
  dsimp only
  rw [hp]
  by_cases hmc : ff.moreComing <;> simp [hmc]

/-- In the properties phase, a frame that does not complete the declared
properties size either accumulates (MoreComing) or raises the
end-of-properties error (final frame). -/
theorem receivedFrameBody_props_incomplete (st : MessageInState) (br : Nat)
    (acc frame : List Byte) (ff : FrameFlags)
    (hp : st.properties = none)
    (hlt : acc.length + frame.length < st.propertiesSize) :
    (receivedFrameBody st br acc frame ff).2 =
      (if ff.moreComing then
        .ok ({ st with
               acc := some (acc ++ frame),
               unackedBytes := (if kIncomingAckThreshold ≤ st.unackedBytes + frame.length
                                then 0 else st.unackedBytes + frame.length) }, false)
       else .error .messageEndsBeforeProperties) := by
  unfold receivedFrameBody
  rw [if_neg (by rintro ⟨-, h2⟩; omega)]
  dsimp only
  rw [hp]
  by_cases hmc : ff.moreComing <;>
    by_cases hth : kIncomingAckThreshold ≤ st.unackedBytes + frame.length <;>
      simp [hmc, hth]

/-- In the properties phase, a frame that completes the declared
properties size extracts the block: it raises the NUL-termination error
when the block is non-empty and does not end in 0, and otherwise records
the block and moves the leftover bytes to the body accumulator. -/
theorem receivedFrameBody_props_complete (st : MessageInState) (br : Nat)
    (acc frame : List Byte) (ff : FrameFlags)
    (hp : st.properties = none)
    (hge : st.propertiesSize ≤ acc.length + frame.length) :
    (0 < (acc ++ frame.take (st.propertiesSize - acc.length)).length ∧
       (acc ++ frame.take (st.propertiesSize - acc.length)).getLast? ≠ some 0 →
      (receivedFrameBody st br acc frame ff).2 = .error .propertiesNotNulTerminated) ∧
    (¬(0 < (acc ++ frame.take (st.propertiesSize - acc.length)).length ∧
        (acc ++ frame.take (st.propertiesSize - acc.length)).getLast? ≠ some 0) →
      ∃ st' d, (receivedFrameBody st br acc frame ff).2 = .ok (st', d) ∧
        st'.properties = some (acc ++ frame.take (st.propertiesSize - acc.length)) ∧
        st'.acc =
          (if ff.moreComing then some (frame.drop (st.propertiesSize - acc.length))
           else none)) := by
  unfold receivedFrameBody
  rw [if_pos ⟨hp, hge⟩]
  constructor
  · intro hnul
    rw [if_pos hnul]
  · intro hnul
    rw [if_neg hnul]
    dsimp only
    by_cases hmc : ff.moreComing <;> simp [hmc]

/-- The only message receivedFrameBody can hand to the connection is the
threshold ACK. -/
theorem receivedFrameBody_fst (st : MessageInState) (br : Nat)
    (acc frame : List Byte) (ff : FrameFlags) :
    (receivedFrameBody st br acc frame ff).1 = none ∨
    ∃ frame1 : List Byte,
      (receivedFrameBody st br acc frame ff).1 =
        (if kIncomingAckThreshold ≤ st.unackedBytes + frame1.length then
          some (mkMessageOut
            { type := if st.flags.type.isResponseKind then .ackResponse else .ackRequest,
              compressed := false, urgent := true, noreply := true, moreComing := false }
            (putUVarInt br) st.number)
         else none) := by
  by_cases hc : st.properties = none ∧ st.propertiesSize ≤ acc.length + frame.length
  · by_cases hnul : 0 < (acc ++ frame.take (st.propertiesSize - acc.length)).length ∧
        (acc ++ frame.take (st.propertiesSize - acc.length)).getLast? ≠ some 0
    · left
      unfold receivedFrameBody
      rw [if_pos hc, if_pos hnul]
    · right
      refine ⟨frame.drop (st.propertiesSize - acc.length), ?_⟩
      unfold receivedFrameBody
      rw [if_pos hc, if_neg hnul]
      dsimp only
      by_cases hmc : ff.moreComing <;> simp [hmc]
  · right
    refine ⟨frame, ?_⟩
    unfold receivedFrameBody
    rw [if_neg hc]
    dsimp only
    by_cases hmc : ff.moreComing
    · simp [hmc]
    · cases hpr : st.properties <;> simp [hmc, hpr]

/-- Every message a single receivedFrame call sends is an ACK: its type
is AckRequest or AckResponse, never Error. -/
theorem receivedFrame_ack_kind (st : MessageInState) (frame : List Byte)
    (ff : FrameFlags) (m : MessageOut)
    (h : (receivedFrame st frame ff).1 = some m) :
    m.flags.type = .ackRequest ∨ m.flags.type = .ackResponse := by
  have hshape : ∀ (st2 : MessageInState) (br : Nat) (acc fr : List Byte) (g : FrameFlags),
      (receivedFrameBody st2 br acc fr g).1 = some m →
      m.flags.type = .ackRequest ∨ m.flags.type = .ackResponse := by
    intro st2 br acc fr g h2
    rcases receivedFrameBody_fst st2 br acc fr g with h3 | ⟨frame1, h3⟩
    · rw [h3] at h2
      simp at h2
    · rw [h3] at h2
      split at h2
      · rw [Option.some.injEq] at h2
        subst h2
        by_cases hk : st2.flags.type.isResponseKind
        · right
          simp [mkMessageOut, hk]
        · left
          simp [mkMessageOut, hk]
      · simp at h2
  unfold receivedFrame at h
  cases hacc : st.acc with
  | some acc0 =>
    rw [hacc] at h
    exact hshape _ _ _ _ _ h
  | none =>
    rw [hacc] at h
    dsimp only at h
    by_cases hcz : ff.compressed
    · rw [if_pos hcz] at h
      simp at h
    · rw [if_neg hcz] at h
      cases hv : readUVarInt32 frame with
      | none =>
        rw [hv] at h
        simp at h
      | some pr =>
        obtain ⟨psize, rest⟩ := pr
        rw [hv] at h
        dsimp only at h
        exact hshape _ _ _ _ _ h

/-- Every message a whole run of receivedFrame calls sends is an ACK. -/
theorem runFrames_ack_kind (frames : List (List Byte × FrameFlags)) :
    ∀ (st : MessageInState) (m : MessageOut), m ∈ (runFrames st frames).1 →
      m.flags.type = .ackRequest ∨ m.flags.type = .ackResponse := by
  induction frames with
  | nil => intro st m hm; simp [runFrames] at hm
  | cons p rest ih =>
    obtain ⟨f, ff⟩ := p
    intro st m hm
    rcases hr : receivedFrame st f ff with ⟨ack, res⟩
    cases res with
    | error e =>
      simp only [runFrames, hr] at hm
      cases ack with
      | none => simp at hm
      | some a =>
        simp at hm
        subst hm
        exact receivedFrame_ack_kind st f ff m (by rw [hr])
    | ok pr =>
      obtain ⟨st', d⟩ := pr
      simp only [runFrames, hr] at hm
      rw [List.mem_append] at hm
      rcases hm with hm | hm
      · cases ack with
        | none => simp at hm
        | some a =>
          simp at hm
          subst hm
          exact receivedFrame_ack_kind st f ff m (by rw [hr])
      · exact ih st' m hm

/-- Once the properties block is set, the remaining frames of a tagged
delivery can never raise an error. -/
theorem runFrames_ok_of_properties_set (base : FrameFlags) :
    ∀ (fs : List (List Byte)) (st : MessageInState) (a ps : List Byte),
      st.acc = some a → st.properties = some ps →
      ∃ stF, (runFrames st (tagFrames base fs)).2 = .ok stF := by
  intro fs
  induction fs with
  | nil => intro st a ps _ _; exact ⟨st, rfl⟩
  | cons f fs' ih =>
    intro st a ps hacc hp
    cases fs' with
    | nil =>
      rw [show tagFrames base [f] = [(f, { base with moreComing := false })] from rfl,
          runFrames_cons, receivedFrame_of_acc st f _ a hacc]
      obtain ⟨st', d, h2, hp', hacc'⟩ :=
        receivedFrameBody_ok_of_props st (f.length + a.length) a f
          { base with moreComing := false } ps hp
      rw [h2]
      exact ⟨st', rfl⟩
    | cons g rest =>
      rw [show tagFrames base (f :: g :: rest) =
            (f, { base with moreComing := true }) :: tagFrames base (g :: rest) from rfl,
          runFrames_cons, receivedFrame_of_acc st f _ a hacc]
      obtain ⟨st', d, h2, hp', hacc'⟩ :=
        receivedFrameBody_ok_of_props st (f.length + a.length) a f
          { base with moreComing := true } ps hp
      rw [h2]
      exact ih st' (a ++ f) ps (by simpa using hacc') hp'

/-- Splitting a take over a leading block that fits inside it. -/
theorem take_append_of_le_length (a l : List Byte) (psize : Nat)
    (h1 : a.length ≤ psize) :
    (a ++ l).take psize = a ++ l.take (psize - a.length) := by
  rw [List.take_append_eq_append_take, List.take_of_length_le h1]

/-- For a non-empty block, failing the NUL-termination check is the same
as the last byte existing and being non-zero. -/
theorem nul_error_iff (l : List Byte) (hl : l ≠ []) :
    (0 < l.length ∧ l.getLast? ≠ some 0) ↔ ∃ b, l.getLast? = some b ∧ b ≠ 0 := by
  rcases ho : l.getLast? with _ | b
  · exact absurd (List.getLast?_eq_none_iff.mp ho) hl
  · simp [List.length_pos.mpr hl, ho]

/-- Error characterization of the properties phase: with the declared
properties size not yet reached, a tagged delivery of the remaining
frames errors exactly when the frames cannot supply the missing
properties bytes (truncated properties) or the completed block's last
byte is non-zero. -/
theorem runFrames_props_phase (base : FrameFlags) :
    ∀ (fs : List (List Byte)) (st : MessageInState) (a : List Byte),
      st.acc = some a → st.properties = none → a.length < st.propertiesSize →
      fs ≠ [] →
      ((∃ e, (runFrames st (tagFrames base fs)).2 = .error e) ↔
        (a.length + (fs.map List.length).sum < st.propertiesSize ∨
         (st.propertiesSize ≤ a.length + (fs.map List.length).sum ∧
          ∃ b, ((a ++ fs.flatten).take st.propertiesSize).getLast? = some b ∧ b ≠ 0))) := by
  intro fs
  induction fs with
  | nil => intro st a _ _ _ hne; exact absurd rfl hne
  | cons f fs' ih =>
    intro st a hacc hp hlt _
    have hprops_ne : st.propertiesSize ≤ a.length + f.length →
        a ++ f.take (st.propertiesSize - a.length) ≠ [] := by
      intro hge hcontra
      have hlen := congrArg List.length hcontra
      rw [List.length_append, List.length_take, List.length_nil] at hlen
      omega
    cases fs' with
    | nil =>
      rw [show tagFrames base [f] = [(f, { base with moreComing := false })] from rfl,
          runFrames_cons, receivedFrame_of_acc st f _ a hacc]
      by_cases hge : st.propertiesSize ≤ a.length + f.length
      · obtain ⟨herr, hok⟩ := receivedFrameBody_props_complete st (f.length + a.length)
          a f { base with moreComing := false } hp hge
        have hpe : (a ++ ([f] : List (List Byte)).flatten).take st.propertiesSize =
            a ++ f.take (st.propertiesSize - a.length) := by
          simp only [List.flatten_cons, List.flatten_nil, List.append_nil]
          exact take_append_of_le_length a f _ (by omega)
        by_cases hnul : 0 < (a ++ f.take (st.propertiesSize - a.length)).length ∧
            (a ++ f.take (st.propertiesSize - a.length)).getLast? ≠ some 0
        · rw [herr hnul]
          simp only [List.map_cons, List.map_nil, List.sum_cons, List.sum_nil, Nat.add_zero]
          constructor
          · intro _
            right
            refine ⟨by omega, ?_⟩
            rw [hpe]
            exact (nul_error_iff _ (hprops_ne hge)).mp hnul
          · intro _
            exact ⟨_, rfl⟩
        · obtain ⟨st', d, h2, hp', hacc'⟩ := hok hnul
          rw [h2]
          simp only [List.map_cons, List.map_nil, List.sum_cons, List.sum_nil, Nat.add_zero]
          constructor
          · rintro ⟨e, he⟩
            exact absurd he (by simp [runFrames])
          · rintro (hcase | ⟨-, hcase⟩)
            · omega
            · rw [hpe] at hcase
              exact absurd ((nul_error_iff _ (hprops_ne hge)).mpr hcase) hnul
      · rw [receivedFrameBody_props_incomplete st (f.length + a.length) a f
            { base with moreComing := false } hp (by omega)]
        rw [if_neg (by simp)]
        simp only [List.map_cons, List.map_nil, List.sum_cons, List.sum_nil, Nat.add_zero]
        constructor
        · intro _
          left
          omega
        · intro _
          exact ⟨_, rfl⟩
    | cons g rest =>
      rw [show tagFrames base (f :: g :: rest) =
            (f, { base with moreComing := true }) :: tagFrames base (g :: rest) from rfl,
          runFrames_cons, receivedFrame_of_acc st f _ a hacc]
      by_cases hge : st.propertiesSize ≤ a.length + f.length
      · obtain ⟨herr, hok⟩ := receivedFrameBody_props_complete st (f.length + a.length)
          a f { base with moreComing := true } hp hge
        have hpe : (a ++ ((f :: g :: rest) : List (List Byte)).flatten).take
              st.propertiesSize = a ++ f.take (st.propertiesSize - a.length) := by
          rw [List.flatten_cons]
          rw [take_append_of_le_length a _ _ (by omega)]
          rw [List.take_append_eq_append_take]
          rw [show st.propertiesSize - a.length - f.length = 0 from by omega,
              List.take_zero, List.append_nil]
        have hsums : st.propertiesSize ≤
            a.length + ((f :: g :: rest).map List.length).sum := by
          simp only [List.map_cons, List.sum_cons]
          omega
        by_cases hnul : 0 < (a ++ f.take (st.propertiesSize - a.length)).length ∧
            (a ++ f.take (st.propertiesSize - a.length)).getLast? ≠ some 0
        · rw [herr hnul]
          constructor
          · intro _
            right
            refine ⟨hsums, ?_⟩
            rw [hpe]
            exact (nul_error_iff _ (hprops_ne hge)).mp hnul
          · intro _
            exact ⟨_, rfl⟩
        · obtain ⟨st', d, h2, hp', hacc'⟩ := hok hnul
          obtain ⟨stF, hF⟩ := runFrames_ok_of_properties_set base (g :: rest) st'
            (f.drop (st.propertiesSize - a.length))
            (a ++ f.take (st.propertiesSize - a.length))
            (by simpa using hacc') hp'
          rw [h2]
          show (∃ e, (runFrames st' (tagFrames base (g :: rest))).2 = Except.error e) ↔ _
          rw [hF]
          constructor
          · rintro ⟨e, he⟩
            exact absurd he (by simp)
          · rintro (hcase | ⟨-, hcase⟩)
            · simp only [List.map_cons, List.sum_cons] at hcase
              omega
            · rw [hpe] at hcase
              exact absurd ((nul_error_iff _ (hprops_ne hge)).mpr hcase) hnul
      · rw [receivedFrameBody_props_incomplete st (f.length + a.length) a f
            { base with moreComing := true } hp (by omega)]
        rw [if_pos (by simp)]
        have hih := ih { st with
            acc := some (a ++ f),
            unackedBytes := (if kIncomingAckThreshold ≤ st.unackedBytes + f.length
                             then 0 else st.unackedBytes + f.length) }
          (a ++ f) rfl hp (by simp only [List.length_append]; omega) (by simp)
        rw [List.append_assoc] at hih
        simp only [List.length_append, List.map_cons, List.sum_cons, List.flatten_cons]
          at hih ⊢
        rw [Nat.add_assoc] at hih
        exact hih

/-- A block that passed the NUL-termination check cannot have a non-zero
last byte. -/
theorem no_bad_last_of_check (l : List Byte)
    (hnul : ¬(0 < l.length ∧ l.getLast? ≠ some 0)) :
    ∀ b, l.getLast? = some b → b = 0 := by
  intro b hb
  have hd := nul_check_passed l hnul
  rw [hb] at hd
  exact hd

/-- A well-formed first frame that carries the whole declared properties
block either raises the NUL-termination error or records the block. -/
theorem receivedFrame_first_complete (tent ff : FrameFlags) (n : Nat)
    (frame : List Byte) (psize : Nat) (tail : List Byte)
    (hcz : ff.compressed = false)
    (hv : readUVarInt32 frame = some (psize, tail))
    (hge : psize ≤ tail.length) :
    (0 < (tail.take psize).length ∧ (tail.take psize).getLast? ≠ some 0 →
      (receivedFrame (initialMessageIn tent n) frame ff).2 =
        .error .propertiesNotNulTerminated) ∧
    (¬(0 < (tail.take psize).length ∧ (tail.take psize).getLast? ≠ some 0) →
      ∃ st' d, (receivedFrame (initialMessageIn tent n) frame ff).2 = .ok (st', d) ∧
        st'.properties = some (tail.take psize) ∧
        st'.acc = (if ff.moreComing then some (tail.drop psize) else none)) := by
  rw [receivedFrame_first _ _ _ rfl hcz psize tail hv]
  have h := receivedFrameBody_props_complete
    { initialMessageIn tent n with flags := ff, propertiesSize := psize }
    frame.length [] tail ff rfl (by simpa using hge)
  simpa using h

/-- A well-formed final first frame that cannot carry the declared
properties block raises the end-of-properties error. -/
theorem receivedFrame_first_incomplete_last (tent ff : FrameFlags) (n : Nat)
    (frame : List Byte) (psize : Nat) (tail : List Byte)
    (hcz : ff.compressed = false) (hmc : ff.moreComing = false)
    (hv : readUVarInt32 frame = some (psize, tail))
    (hlt : tail.length < psize) :
    (receivedFrame (initialMessageIn tent n) frame ff).2 =
      .error .messageEndsBeforeProperties := by
  rw [receivedFrame_first _ _ _ rfl hcz psize tail hv]
  rw [receivedFrameBody_props_incomplete _ _ _ _ _ rfl (by simpa using hlt)]
  rw [if_neg (by simp [hmc])]

/-- A well-formed non-final first frame that cannot carry the declared
properties block starts accumulating them. -/
theorem receivedFrame_first_incomplete_more (tent ff : FrameFlags) (n : Nat)
    (frame : List Byte) (psize : Nat) (tail : List Byte)
    (hcz : ff.compressed = false) (hmc : ff.moreComing = true)
    (hv : readUVarInt32 frame = some (psize, tail))
    (hlt : tail.length < psize) :
    ∃ st', (receivedFrame (initialMessageIn tent n) frame ff).2 = .ok (st', false) ∧
      st'.acc = some tail ∧ st'.properties = none ∧ st'.propertiesSize = psize := by
  rw [receivedFrame_first _ _ _ rfl hcz psize tail hv]
  rw [receivedFrameBody_props_incomplete _ _ _ _ _ rfl (by simpa using hlt)]
  rw [if_pos (by simp [hmc])]
  exact ⟨_, rfl, by simp, rfl, rfl⟩

/-- With the compressed flag clear and a readable size varint, the C4
error condition reduces to its properties-level part. -/
theorem protocolErrorCond_some (base : FrameFlags) (f1 : List Byte)
    (rest : List (List Byte)) (psize : Nat) (tail : List Byte)
    (hcz : base.compressed = false)
    (hv : readUVarInt32 f1 = some (psize, tail)) :
    ProtocolErrorCond base f1 rest ↔
      (tail.length + (rest.map List.length).sum < psize ∨
       (psize ≤ tail.length + (rest.map List.length).sum ∧
        ∃ b, ((tail ++ rest.flatten).take psize).getLast? = some b ∧ b ≠ 0)) := by
  unfold ProtocolErrorCond
  rw [hv]
  simp only [hcz, Bool.false_eq_true, false_or, Option.some.injEq, Prod.mk.injEq,
    reduceCtorEq, ne_eq]
  constructor
  · rintro ⟨p, t, ⟨rfl, rfl⟩, hc⟩
    exact hc
  · intro hc
    exact ⟨psize, tail, ⟨rfl, rfl⟩, hc⟩

/-- The slice of the declared properties size taken from the payload
stream stops inside the first frame when that frame already carries the
whole block. -/
theorem take_flatten_first (tail : List Byte) (rest : List (List Byte)) (psize : Nat)
    (hge : psize ≤ tail.length) :
    (tail ++ rest.flatten).take psize = tail.take psize := by
  rw [List.take_append_eq_append_take,
      show psize - tail.length = 0 from by omega, List.take_zero, List.append_nil]

/-- Claim C4: over a delivery of a payload split into a first frame f1
and following frames rest (MoreComing on all but the last), a fresh
MessageIn raises a protocol error exactly when the first frame carries
the Compressed flag, or its leading properties-size varint is malformed,
truncated or beyond 32 bits, or fewer properties bytes than declared
arrive before the final frame, or the extracted properties block is
non-empty and does not end in a 0 byte; and every message the MessageIn
hands to the connection during the run is an ACK, never an Error
message, so the failure is not reported back to the peer. -/
theorem C4_protocol_errors (base tent : FrameFlags) (n : Nat)
    (f1 : List Byte) (rest : List (List Byte)) :
    ((∃ e, (runFrames (initialMessageIn tent n) (tagFrames base (f1 :: rest))).2 =
        .error e) ↔ ProtocolErrorCond base f1 rest) ∧
    (∀ m ∈ (runFrames (initialMessageIn tent n) (tagFrames base (f1 :: rest))).1,
      m.flags.type ≠ .error) := by
  constructor
  case right =>
    intro m hm
    rcases runFrames_ack_kind _ _ m hm with h | h <;> simp [h]
  case left =>
    cases rest with
    | nil =>
      rw [show tagFrames base [f1] = [(f1, { base with moreComing := false })] from rfl,
          runFrames_cons]
      by_cases hcz : base.compressed
      · rw [receivedFrame_first_compressed (initialMessageIn tent n) f1
            { base with moreComing := false } rfl hcz]
        exact ⟨fun _ => Or.inl hcz, fun _ => ⟨.compressionUnsupported, rfl⟩⟩
      · have hcz' : base.compressed = false := by simpa using hcz
        cases hv : readUVarInt32 f1 with
        | none =>
          rw [receivedFrame_first_badVarint (initialMessageIn tent n) f1
              { base with moreComing := false } rfl hcz' hv]
          exact ⟨fun _ => Or.inr (Or.inl hv), fun _ => ⟨.frameTooSmall, rfl⟩⟩
        | some pr =>
          obtain ⟨psize, tail⟩ := pr
          rw [protocolErrorCond_some base f1 [] psize tail hcz' hv]
          simp only [List.map_nil, List.sum_nil, Nat.add_zero, List.flatten_nil,
            List.append_nil]
          by_cases hge : psize ≤ tail.length
          · obtain ⟨herr, hok⟩ :=
              receivedFrame_first_complete tent { base with moreComing := false } n f1 psize tail hcz' hv hge
            by_cases hnul : 0 < (tail.take psize).length ∧
                (tail.take psize).getLast? ≠ some 0
            · rw [herr hnul]
              refine ⟨fun _ => Or.inr ⟨hge, ?_⟩,
                fun _ => ⟨.propertiesNotNulTerminated, rfl⟩⟩
              exact (nul_error_iff _ (List.length_pos.mp hnul.1)).mp hnul
            · obtain ⟨st', d, h2, hp', hacc'⟩ := hok hnul
              rw [h2]
              show (∃ e, (runFrames st' ([] : List (List Byte × FrameFlags))).2 =
                  Except.error e) ↔ _
              constructor
              · rintro ⟨e, he⟩
                exact absurd he (by simp [runFrames])
              · rintro (hc | ⟨-, b, hb, hbne⟩)
                · omega
                · exact absurd (no_bad_last_of_check _ hnul b hb) hbne
          · rw [receivedFrame_first_incomplete_last tent { base with moreComing := false } n f1 psize tail hcz'
                rfl hv
                (by omega)]
            exact ⟨fun _ => Or.inl (by omega),
              fun _ => ⟨.messageEndsBeforeProperties, rfl⟩⟩
    | cons g rest' =>
      rw [show tagFrames base (f1 :: g :: rest') =
            (f1, { base with moreComing := true }) :: tagFrames base (g :: rest')
            from rfl,
          runFrames_cons]
      by_cases hcz : base.compressed
      · rw [receivedFrame_first_compressed (initialMessageIn tent n) f1
            { base with moreComing := true } rfl hcz]
        exact ⟨fun _ => Or.inl hcz, fun _ => ⟨.compressionUnsupported, rfl⟩⟩
      · have hcz' : base.compressed = false := by simpa using hcz
        cases hv : readUVarInt32 f1 with
        | none =>
          rw [receivedFrame_first_badVarint (initialMessageIn tent n) f1
              { base with moreComing := true } rfl hcz' hv]
          exact ⟨fun _ => Or.inr (Or.inl hv), fun _ => ⟨.frameTooSmall, rfl⟩⟩
        | some pr =>
          obtain ⟨psize, tail⟩ := pr
          rw [protocolErrorCond_some base f1 (g :: rest') psize tail hcz' hv]
          by_cases hge : psize ≤ tail.length
          · have hpe := take_flatten_first tail (g :: rest') psize hge
            obtain ⟨herr, hok⟩ :=
              receivedFrame_first_complete tent { base with moreComing := true } n f1 psize tail hcz' hv hge
            by_cases hnul : 0 < (tail.take psize).length ∧
                (tail.take psize).getLast? ≠ some 0
            · rw [herr hnul]
              refine ⟨fun _ => Or.inr ⟨by omega, ?_⟩,
                fun _ => ⟨.propertiesNotNulTerminated, rfl⟩⟩
              rw [hpe]
              exact (nul_error_iff _ (List.length_pos.mp hnul.1)).mp hnul
            · obtain ⟨st', d, h2, hp', hacc'⟩ := hok hnul
              obtain ⟨stF, hF⟩ := runFrames_ok_of_properties_set base (g :: rest') st'
                (tail.drop psize) (tail.take psize) (by simpa using hacc') hp'
              rw [h2]
              show (∃ e, (runFrames st' (tagFrames base (g :: rest'))).2 =
                  Except.error e) ↔ _
              rw [hF]
              constructor
              · rintro ⟨e, he⟩
                exact absurd he (by simp)
              · rintro (hc | ⟨-, b, hb, hbne⟩)
                · omega
                · rw [hpe] at hb
                  exact absurd (no_bad_last_of_check _ hnul b hb) hbne
          · obtain ⟨st'', h2, hacc'', hp'', hps''⟩ :=
              receivedFrame_first_incomplete_more tent { base with moreComing := true } n f1 psize tail hcz'
                rfl hv
                (by omega)
            rw [h2]
            show (∃ e, (runFrames st'' (tagFrames base (g :: rest'))).2 =
                Except.error e) ↔ _
            have hA := runFrames_props_phase base (g :: rest') st'' tail hacc'' hp''
              (by rw [hps'']; omega) (by simp)
            rw [hps''] at hA
            exact hA

/-- Witness for C4 at a concrete delivery: the one-byte payload of a
zero-size properties block in a single frame. -/
theorem C4_protocol_errors_witness :
    ((∃ e, (runFrames (initialMessageIn ffRequest 1) (tagFrames ffRequest [[0]])).2 =
        .error e) ↔ ProtocolErrorCond ffRequest [0] []) ∧
    (∀ m ∈ (runFrames (initialMessageIn ffRequest 1) (tagFrames ffRequest [[0]])).1,
      m.flags.type ≠ .error) :=
  C4_protocol_errors ffRequest ffRequest 1 [0] []

/-- Witness for C8 at a concrete Request without NoReply. -/
theorem C8_pendingResponse_witness :
    futureResponse (mkMessageOut ffRequest [1, 2] 4) =
      (if ffRequest.type = .request ∧ ffRequest.noreply = false then
        some { flags := { type := .response, compressed := false, urgent := false,
                          noreply := false, moreComing := false }, number := 4 }
       else none) :=
  (C8_pendingResponse ffRequest [1, 2] 4).2

end Blip
